import Mathlib

/-!
Shallow embedding of `angular-changes-manager` (src/src/ChangesManager.ts,
second class version at lines 481-856, and the utils in
src/unnamed/part_002).  JS values are modelled by an inductive with
reference identity for objects; JS `Map`s and `Set`s are modelled by
association lists / lists with insertion-order semantics; functions
(handlers and validators) are modelled by numeric identities whose
behaviour is supplied by an environment; a thrown exception is modelled
by `Except` / an explicit `threw` flag.
-/

instance {ε α : Type} [DecidableEq ε] [DecidableEq α] : DecidableEq (Except ε α)
  | .error a, .error b =>
    if h : a = b then .isTrue (h ▸ rfl)
    else .isFalse fun hh => h (Except.error.inj hh)
  | .error _, .ok _ => .isFalse fun hh => nomatch hh
  | .ok _, .error _ => .isFalse fun hh => nomatch hh
  | .ok a, .ok b =>
    if h : a = b then .isTrue (h ▸ rfl)
    else .isFalse fun hh => h (Except.ok.inj hh)

/-- A JavaScript value as far as `Object.is` can distinguish it: primitives
compare by value, objects (`objRef`) by reference identity. -/
inductive JSValue where
  | str (s : String)
  | int (n : Int)
  | boolean (b : Bool)
  | undef
  | jsNull
  | objRef (id : Nat)
deriving DecidableEq

/-- `Object.is(currentValue, previousValue)` (same-value identity; on this
value universe it coincides with decidable equality since NaN and -0 are
not modelled). -/
def sameValue (a b : JSValue) : Bool := decide (a = b)

/-- Angular's `SimpleChange` record as used by the code. -/
structure SimpleChange where
  previousValue : JSValue
  currentValue : JSValue
  firstChange : Bool
deriving DecidableEq

/-- `SimpleChange` extended with the derived `didChange` flag (`TChange`). -/
structure TChange where
  previousValue : JSValue
  currentValue : JSValue
  firstChange : Bool
  didChange : Bool
deriving DecidableEq

/-- `didPropertyChange` (ChangesManager.utils): `none` models the record
being `undefined`.  Source:
`shouldIgnoreChange = firstChange || simpleChange === undefined`, then
`Object.is(currentValue, previousValue)` decides. -/
def didPropertyChange : Option SimpleChange → Bool
  | none => false
  | some c =>
    if c.firstChange then false
    else if sameValue c.currentValue c.previousValue then false
    else true

/-- A `SimpleChanges` object: insertion-ordered field map (JS object keys
are unique). -/
def SimpleChangesMap := List (String × SimpleChange)

/-- A `TChangesSummary`: field name to `TChange`. -/
def ChangesSummary := List (String × TChange)

/-- `getChangesSummary` (ChangesManager.utils): spread each record and add
`didChange := didPropertyChange(simpleChange)`. -/
def getChangesSummary (simpleChanges : List (String × SimpleChange)) :
    List (String × TChange) :=
  simpleChanges.map fun e =>
    (e.1, { previousValue := e.2.previousValue
            currentValue := e.2.currentValue
            firstChange := e.2.firstChange
            didChange := didPropertyChange (some e.2) })

/-- `TCallbackConfig` after normalisation: `callback` and `validator` are
function identities; `none` models `undefined`/`null` (a malformed
declaration destructures to an `undefined` callback). -/
structure TCallbackConfig where
  callback : Option Nat
  validator : Option Nat
deriving DecidableEq

/-- A raw value appearing as a callback declaration in the configuration
parameter: a function, a config object, some other non-nullish value
(e.g. a number: destructuring yields `undefined` fields), or a nullish
value (destructuring throws a TypeError). -/
inductive TDeclValue where
  | fn (f : Nat)
  | obj (callback : Option Nat) (validator : Option Nat)
  | otherValue
  | nullish
deriving DecidableEq

/-- Normalisation step shared by both configuration shapes:
`isFunction ? { callback, validator: null } : callbackConfig`. -/
def normalizeDecl : TDeclValue → TDeclValue
  | .fn f => .obj (some f) none
  | d => d

/-- `getCallbacksConfigFromParameter` (list shape). -/
def getCallbacksConfigFromParameter
    (callbacksConfig : List (List String × TDeclValue)) :
    List (List String × TDeclValue) :=
  callbacksConfig.map fun e => (e.1, normalizeDecl e.2)

/-- `getCallbacksConfigFromParameterObject` (mapping shape): every field is
its own singleton group. -/
def getCallbacksConfigFromParameterObject
    (callbacksConfig : List (String × TDeclValue)) :
    List (List String × TDeclValue) :=
  callbacksConfig.map fun e => ([e.1], normalizeDecl e.2)

/-- Lexicographic comparison of character lists by code point, used to
embed the default JS string comparator (for the ASCII field names of the
source, UTF-16 code-unit order and code-point order agree). -/
def strLeChars : List Char → List Char → Bool
  | [], _ => true
  | _ :: _, [] => false
  | a :: as, b :: bs =>
    if a.toNat < b.toNat then true
    else if b.toNat < a.toNat then false
    else strLeChars as bs

/-- JS string comparison `a <= b` as used by `Array.prototype.sort()`. -/
def jsStrLe (a b : String) : Bool := strLeChars a.data b.data

/-- JS `props.sort()` on strings: sort by the default comparator. -/
def sortStrings (props : List String) : List String :=
  List.insertionSort (fun a b => jsStrLe a b = true) props

/-- `const groupId = props.sort().join('|')`. -/
def groupIdOf (props : List String) : String :=
  String.intercalate "|" (sortStrings props)

/-- JS `Map.prototype.set`: replace in place when the key exists, append
otherwise (insertion order preserved). -/
def mapSet {K V : Type} [DecidableEq K] : List (K × V) → K → V → List (K × V)
  | [], k, v => [(k, v)]
  | e :: rest, k, v =>
    if e.1 = k then (k, v) :: rest else e :: mapSet rest k v

/-- JS `Map.prototype.get` (first match; keys are unique in maps we build). -/
def jsGet {K V : Type} [DecidableEq K] : List (K × V) → K → Option V
  | [], _ => none
  | e :: rest, k => if e.1 = k then some e.2 else jsGet rest k

/-- JS `Set.prototype.add`: append when absent. -/
def addIfAbsent {α : Type} [DecidableEq α] (l : List α) (x : α) : List α :=
  if x ∈ l then l else l ++ [x]

/-- JS `new Set(list)`: dedup preserving first occurrence. -/
def jsSetOf {α : Type} [DecidableEq α] (l : List α) : List α :=
  l.foldl addIfAbsent []

/-- The two parallel registry maps (`propertiesByGroup`, `callbacksByGroup`),
both keyed by the group id and built together. -/
structure Registry where
  propertiesByGroup : List (String × List String)
  callbacksByGroup : List (String × TCallbackConfig)
deriving DecidableEq

/-- Destructuring `{ callback, validator }` from a (normalised) declared
value: objects give their fields, a function or any other non-nullish
value gives `undefined` fields, a nullish value throws a TypeError. -/
def destructureConfig : TDeclValue → Except Unit (Option Nat × Option Nat)
  | .fn _ => .ok (none, none)
  | .obj cb v => .ok (cb, v)
  | .otherValue => .ok (none, none)
  | .nullish => .error ()

/-- Fold of `computeCallbackConfigDerivatives`: for each entry compute the
group id from the sorted props, store the prop set and the
`{ callback, validator: validator ?? null }` config, later entries
overwriting earlier ones with the same key (`Map.set`). -/
def computeDerivativesGo :
    List (List String × TDeclValue) → Registry → Except Unit Registry
  | [], acc => .ok acc
  | (props, d) :: rest, acc =>
    match destructureConfig d with
    | .error e => .error e
    | .ok (cb, v) =>
      let sorted := sortStrings props
      let gid := String.intercalate "|" sorted
      computeDerivativesGo rest
        { propertiesByGroup := mapSet acc.propertiesByGroup gid (jsSetOf sorted)
          callbacksByGroup := mapSet acc.callbacksByGroup gid ⟨cb, v⟩ }

/-- `computeCallbackConfigDerivatives`. -/
def computeCallbackConfigDerivatives
    (callbacksConfig : List (List String × TDeclValue)) : Except Unit Registry :=
  computeDerivativesGo callbacksConfig ⟨[], []⟩

/-- `setCallbacksConfig` for the list configuration shape. -/
def buildRegistryFromList (cfg : List (List String × TDeclValue)) :
    Except Unit Registry :=
  computeCallbackConfigDerivatives (getCallbacksConfigFromParameter cfg)

/-- `setCallbacksConfig` for the mapping configuration shape. -/
def buildRegistryFromObject (cfg : List (String × TDeclValue)) :
    Except Unit Registry :=
  computeCallbackConfigDerivatives (getCallbacksConfigFromParameterObject cfg)

/-- Behaviour of the JS functions referenced by identity: a validator may
return a boolean (`some b`) or throw (`none`); a handler either completes
or throws.  (Handlers and validators are modelled as functions of the
summary argument they receive.) -/
structure Env where
  validatorRun : Nat → List (String × TChange) → Option Bool
  handlerThrows : Nat → List (String × TChange) → Bool

/-- The group-trigger test inside `getCallbacksWhichShouldBeExecuted`:
some reported property has `didChange` and belongs to the group's
attribute set.  (JS object keys are unique, so iterating
`Object.keys(changesSummary)` with a lookup is iterating the entries;
`propertiesByGroup.get(groupId)` is always present for keys of
`callbacksByGroup` since both maps are built together.) -/
def triggered (R : Registry) (changesSummary : List (String × TChange))
    (groupId : String) : Bool :=
  changesSummary.any fun e =>
    e.2.didChange && ((jsGet R.propertiesByGroup groupId).getD []).contains e.1

/-- Fold of `getCallbacksWhichShouldBeExecuted`: accumulate, per callback
identity, the set of validators of every triggered group mapping to it
(`if (validator) validators.add(validator)` skips the `null` validator). -/
def getCallbacksGo (R : Registry) (changesSummary : List (String × TChange)) :
    List (String × TCallbackConfig) → List (Option Nat × List Nat) →
    List (Option Nat × List Nat)
  | [], acc => acc
  | (gid, cfg) :: rest, acc =>
    if triggered R changesSummary gid then
      let validators := (jsGet acc cfg.callback).getD []
      let validators :=
        match cfg.validator with
        | some v => addIfAbsent validators v
        | none => validators
      getCallbacksGo R changesSummary rest (mapSet acc cfg.callback validators)
    else
      getCallbacksGo R changesSummary rest acc

/-- `getCallbacksWhichShouldBeExecuted`. -/
def getCallbacksWhichShouldBeExecuted (R : Registry)
    (changesSummary : List (String × TChange)) : List (Option Nat × List Nat) :=
  getCallbacksGo R changesSummary R.callbacksByGroup []

/-- `Array.from(validators).every((validator) => validator(changesSummary))`:
short-circuits on the first `false`; a throwing validator propagates. -/
def evalValidators (env : Env) (changesSummary : List (String × TChange)) :
    List Nat → Except Unit Bool
  | [] => .ok true
  | v :: rest =>
    match env.validatorRun v changesSummary with
    | none => .error ()
    | some false => .ok false
    | some true => evalValidators env changesSummary rest

/-- Observable outcome of one dispatch: handler invocations in order with
the argument each received, whether `detectChanges` (the re-render
signal) ran, and whether an exception propagated to the caller. -/
structure DispatchOutcome where
  calls : List (Nat × List (String × TChange))
  rerender : Bool
  threw : Bool
deriving DecidableEq

/-- The `forEach` of `executeChangesCallbacks` followed by
`this.detectChanges()`.  A validator throwing, a `callback.call` on an
`undefined` callback, or a handler throwing aborts the remaining handlers
and skips `detectChanges`. -/
def execLoop (env : Env) (changesSummary : List (String × TChange)) :
    List (Option Nat × List Nat) → List (Nat × List (String × TChange)) →
    DispatchOutcome
  | [], acc => ⟨acc, true, false⟩
  | (cb, vs) :: rest, acc =>
    match evalValidators env changesSummary vs with
    | .error _ => ⟨acc, false, true⟩
    | .ok false => execLoop env changesSummary rest acc
    | .ok true =>
      match cb with
      | none => ⟨acc, false, true⟩
      | some h =>
        if env.handlerThrows h changesSummary then
          ⟨acc ++ [(h, changesSummary)], false, true⟩
        else
          execLoop env changesSummary rest (acc ++ [(h, changesSummary)])

/-- `executeChangesCallbacks`. -/
def executeChangesCallbacks (env : Env) (R : Registry)
    (changesSummary : List (String × TChange)) : DispatchOutcome :=
  execLoop env changesSummary
    (getCallbacksWhichShouldBeExecuted R changesSummary) []

/-- `_manageChanges`: compute the summary; in strict mode skip everything
when nothing changed, otherwise run `executeChangesCallbacks`.  (The
optional `onChanges` hook runs after the dispatch; no claim concerns it,
so it is not part of the outcome.) -/
def manageChangesCore (env : Env) (R : Registry) (strict : Bool)
    (simpleChanges : List (String × SimpleChange)) :
    List (String × TChange) × DispatchOutcome :=
  let changesSummary := getChangesSummary simpleChanges
  let shouldProcessChanges := changesSummary.any fun e => e.2.didChange
  if strict && !shouldProcessChanges then (changesSummary, ⟨[], false, false⟩)
  else (changesSummary, executeChangesCallbacks env R changesSummary)

/-- A JS number as far as `isNaN` can tell (a `null` delay coerces to 0
under `isNaN`, hence behaves like a number there). -/
inductive JSNumber where
  | num (n : Int)
  | nan
deriving DecidableEq

def jsIsNaN : JSNumber → Bool
  | .nan => true
  | .num _ => false

/-- What the public `manageChanges` returns to its caller, as wired by the
constructor: `shouldDebounceDetection = !isNaN(debounceDelay)` installs
`debounce(this._manageChanges, debounceDelay)`, whose wrapper returns
`undefined` (`.ok none`); only a NaN delay installs `_manageChanges`
itself, which returns the summary (`.ok (some s)`) unless the dispatch
threw (`.error ()`). -/
def manageChangesResult (env : Env) (R : Registry) (strict : Bool)
    (debounceDelay : JSNumber) (simpleChanges : List (String × SimpleChange)) :
    Except Unit (Option (List (String × TChange))) :=
  if !(jsIsNaN debounceDelay) then .ok none
  else
    let r := manageChangesCore env R strict simpleChanges
    if r.2.threw then .error () else .ok (some r.1)

/-- JS `String.prototype.split` on a one-character separator, over the
character list (`"".split(sep)` gives `[""]`, adjacent separators give
empty pieces). -/
def splitOnChar (sep : Char) : List Char → List (List Char)
  | [] => [[]]
  | c :: rest =>
    let r := splitOnChar sep rest
    if c = sep then [] :: r
    else
      match r with
      | [] => [[c]]
      | g :: gs => (c :: g) :: gs

/-- `groupId.split('|')`. -/
def jsSplitPipe (s : String) : List String :=
  (splitOnChar '|' s.data).map fun cs => String.mk cs

/-- Fold of `executeCallbacks`: for every group, add the attributes of
`groupId.split('|')` to one set and add the group's validator — even a
`null` one — to the callback's validation set. -/
def collectAllGo :
    List (String × TCallbackConfig) →
    List (Option Nat × List (Option Nat)) × List String →
    List (Option Nat × List (Option Nat)) × List String
  | [], acc => acc
  | (gid, cfg) :: rest, (callbacks, attributes) =>
    let attributes := (jsSplitPipe gid).foldl addIfAbsent attributes
    let validations := (jsGet callbacks cfg.callback).getD []
    let validations := addIfAbsent validations cfg.validator
    collectAllGo rest (mapSet callbacks cfg.callback validations, attributes)

/-- The synthetic `SimpleChanges` object of `executeCallbacks`: every
collected attribute maps to a record with `currentValue` and
`previousValue` both read from the component and `firstChange: false`. -/
def syntheticSimpleChanges (R : Registry) (component : String → JSValue) :
    List (String × SimpleChange) :=
  (collectAllGo R.callbacksByGroup ([], [])).2.map fun a =>
    (a, ⟨component a, component a, false⟩)

/-- The synthetic summary `executeCallbacks` hands to validators/handlers. -/
def syntheticSummary (R : Registry) (component : String → JSValue) :
    List (String × TChange) :=
  getChangesSummary (syntheticSimpleChanges R component)

/-- `Array.from(validators).every(...)` inside `executeCallbacks`: here the
set may contain `null` (`none`), and calling it throws a TypeError. -/
def evalValidatorsOpt (env : Env) (changesSummary : List (String × TChange)) :
    List (Option Nat) → Except Unit Bool
  | [] => .ok true
  | none :: _ => .error ()
  | some v :: rest =>
    match env.validatorRun v changesSummary with
    | none => .error ()
    | some false => .ok false
    | some true => evalValidatorsOpt env changesSummary rest

/-- The `forEach` of `executeCallbacks`:
`avoidValidations || validators.every(...)`, then `callback.call`.  No
`detectChanges` call anywhere on this path. -/
def execAllLoop (env : Env) (changesSummary : List (String × TChange))
    (avoidValidations : Bool) :
    List (Option Nat × List (Option Nat)) → List (Nat × List (String × TChange)) →
    DispatchOutcome
  | [], acc => ⟨acc, false, false⟩
  | (cb, vs) :: rest, acc =>
    match
      if avoidValidations then Except.ok true
      else evalValidatorsOpt env changesSummary vs with
    | .error _ => ⟨acc, false, true⟩
    | .ok false => execAllLoop env changesSummary avoidValidations rest acc
    | .ok true =>
      match cb with
      | none => ⟨acc, false, true⟩
      | some h =>
        if env.handlerThrows h changesSummary then
          ⟨acc ++ [(h, changesSummary)], false, true⟩
        else
          execAllLoop env changesSummary avoidValidations rest
            (acc ++ [(h, changesSummary)])

/-- `executeCallbacks` (the manual run-all-handlers-now action). -/
def executeCallbacks (env : Env) (R : Registry) (component : String → JSValue)
    (avoidValidations : Bool) : DispatchOutcome :=
  execAllLoop env (syntheticSummary R component) avoidValidations
    (collectAllGo R.callbacksByGroup ([], [])).1 []

/-- Number of invocations of handler `h` in a call trace. -/
def countCalls (calls : List (Nat × List (String × TChange))) (h : Nat) : Nat :=
  (calls.filter fun c => decide (c.1 = h)).length

/-- All validators of a list return `true` in this environment. -/
def vsAllTrue (env : Env) (changesSummary : List (String × TChange))
    (vs : List Nat) : Bool :=
  vs.all fun v => decide (env.validatorRun v changesSummary = some true)

/-- The calls an entry list produces when nothing throws: one call per
entry whose validators all approve, in order, each with the full summary. -/
def cleanCalls (env : Env) (changesSummary : List (String × TChange))
    (entries : List (Option Nat × List Nat)) :
    List (Nat × List (String × TChange)) :=
  (entries.filter fun e => vsAllTrue env changesSummary e.2).filterMap
    fun e => e.1.map fun h => (h, changesSummary)

/-! ### Association-list (JS `Map`) and `Set` lemmas -/

theorem jsGet_mapSet_self {K V : Type} [DecidableEq K]
    (m : List (K × V)) (k : K) (v : V) : jsGet (mapSet m k v) k = some v := by
  induction m with
  | nil => simp [mapSet, jsGet]
  | cons e rest ih =>
    by_cases h : e.1 = k
    · simp [mapSet, h, jsGet]
    · simp [mapSet, h, jsGet, ih]

theorem jsGet_mapSet_ne {K V : Type} [DecidableEq K]
    (m : List (K × V)) (k k' : K) (v : V) (h : k' ≠ k) :
    jsGet (mapSet m k v) k' = jsGet m k' := by
  induction m with
  | nil => simp [mapSet, jsGet, Ne.symm h]
  | cons e rest ih =>
    by_cases he : e.1 = k
    · subst he
      simp [mapSet, jsGet, Ne.symm h]
    · simp [mapSet, he, jsGet, ih]

theorem keys_mapSet {K V : Type} [DecidableEq K]
    (m : List (K × V)) (k : K) (v : V) :
    (mapSet m k v).map Prod.fst =
      if k ∈ m.map Prod.fst then m.map Prod.fst
      else m.map Prod.fst ++ [k] := by
  induction m with
  | nil => simp [mapSet]
  | cons e rest ih =>
    by_cases he : e.1 = k
    · simp [mapSet, he]
    · by_cases hk : k ∈ rest.map Prod.fst <;>
        simp [mapSet, he, ih, hk, Ne.symm he]

theorem mem_keys_mapSet {K V : Type} [DecidableEq K]
    (m : List (K × V)) (k k' : K) (v : V) :
    k' ∈ (mapSet m k v).map Prod.fst ↔ k' ∈ m.map Prod.fst ∨ k' = k := by
  rw [keys_mapSet]
  split_ifs with hk
  · constructor
    · exact Or.inl
    · rintro (h | rfl)
      · exact h
      · exact hk
  · simp

theorem nodup_keys_mapSet {K V : Type} [DecidableEq K]
    (m : List (K × V)) (k : K) (v : V) (h : (m.map Prod.fst).Nodup) :
    ((mapSet m k v).map Prod.fst).Nodup := by
  rw [keys_mapSet]
  split_ifs with hk
  · exact h
  · exact h.append (List.nodup_singleton _)
      (by simpa [List.disjoint_singleton] using hk)

theorem jsGet_eq_some_of_mem {K V : Type} [DecidableEq K]
    {m : List (K × V)} {k : K} {v : V}
    (hm : (k, v) ∈ m) (hnd : (m.map Prod.fst).Nodup) : jsGet m k = some v := by
  induction m with
  | nil => cases hm
  | cons e rest ih =>
    rcases List.mem_cons.mp hm with h | h
    · subst h
      simp [jsGet]
    · have hne : e.1 ≠ k := by
        intro hek
        have h1 : e.1 ∉ rest.map Prod.fst := (List.nodup_cons.mp hnd).1
        exact h1 (hek ▸ List.mem_map_of_mem Prod.fst h)
      simp only [jsGet, hne, if_false]
      exact ih h (List.nodup_cons.mp hnd).2

theorem exists_jsGet_of_mem_keys {K V : Type} [DecidableEq K]
    {m : List (K × V)} {k : K} (h : k ∈ m.map Prod.fst) :
    ∃ v, jsGet m k = some v := by
  induction m with
  | nil => simp at h
  | cons e rest ih =>
    by_cases he : e.1 = k
    · exact ⟨e.2, by simp [jsGet, he]⟩
    · simp only [List.map_cons, List.mem_cons] at h
      rcases h with h | h
      · exact absurd h.symm he
      · simpa [jsGet, he] using ih h

theorem mem_of_jsGet_eq_some {K V : Type} [DecidableEq K]
    {m : List (K × V)} {k : K} {v : V} (h : jsGet m k = some v) : (k, v) ∈ m := by
  induction m with
  | nil => simp [jsGet] at h
  | cons e rest ih =>
    by_cases he : e.1 = k
    · simp only [jsGet, he, if_true, Option.some.injEq] at h
      subst h
      exact (he ▸ List.mem_cons_self e rest : (k, e.2) ∈ e :: rest)
    · simp only [jsGet, he, if_false] at h
      exact List.mem_cons_of_mem _ (ih h)

theorem mem_addIfAbsent_self {α : Type} [DecidableEq α] (l : List α) (x : α) :
    x ∈ addIfAbsent l x := by
  unfold addIfAbsent
  split_ifs with h
  · exact h
  · simp

theorem mem_addIfAbsent_mono {α : Type} [DecidableEq α]
    {l : List α} {y : α} (x : α) (h : y ∈ l) : y ∈ addIfAbsent l x := by
  unfold addIfAbsent
  split_ifs
  · exact h
  · simp [h]

theorem mem_foldl_addIfAbsent_mono {α : Type} [DecidableEq α]
    (l : List α) {acc : List α} {y : α} (h : y ∈ acc) :
    y ∈ l.foldl addIfAbsent acc := by
  induction l generalizing acc with
  | nil => exact h
  | cons x rest ih => exact ih (mem_addIfAbsent_mono x h)

theorem mem_foldl_addIfAbsent_of_mem {α : Type} [DecidableEq α]
    (l : List α) (acc : List α) {y : α} (h : y ∈ l) :
    y ∈ l.foldl addIfAbsent acc := by
  induction l generalizing acc with
  | nil => cases h
  | cons x rest ih =>
    rcases List.mem_cons.mp h with rfl | h
    · exact mem_foldl_addIfAbsent_mono rest (mem_addIfAbsent_self acc y)
    · exact ih _ h

/-! ### Counting handler invocations -/

theorem countCalls_filterMap {V : Type} (l : List (Option Nat × V))
    (s : List (String × TChange)) (h : Nat) :
    countCalls (l.filterMap fun e => e.1.map fun x => (x, s)) h =
      (l.filter fun e => decide (e.1 = some h)).length := by
  induction l with
  | nil => rfl
  | cons e rest ih =>
    rcases e with ⟨cb, v⟩
    cases cb with
    | none => simpa [countCalls, List.filterMap_cons, List.filter_cons] using ih
    | some x =>
      by_cases hx : x = h <;>
        simpa [countCalls, List.filterMap_cons, List.filter_cons, hx] using ih

theorem length_filter_key_zero {K V : Type} [DecidableEq K]
    (m : List (K × V)) (k : K) (p : V → Bool) (h : k ∉ m.map Prod.fst) :
    (m.filter fun e => decide (e.1 = k) && p e.2).length = 0 := by
  induction m with
  | nil => rfl
  | cons e rest ih =>
    simp only [List.map_cons, List.mem_cons, not_or] at h
    have hne : ¬(e.1 = k) := fun he => h.1 he.symm
    simpa [List.filter_cons, hne] using ih h.2

theorem length_filter_key {K V : Type} [DecidableEq K]
    (m : List (K × V)) (k : K) (p : V → Bool)
    (hnd : (m.map Prod.fst).Nodup) :
    (m.filter fun e => decide (e.1 = k) && p e.2).length =
      (jsGet m k).elim 0 (fun v => if p v then 1 else 0) := by
  induction m with
  | nil => rfl
  | cons e rest ih =>
    have hnd' : (e.1 :: rest.map Prod.fst).Nodup := by
      rwa [List.map_cons] at hnd
    by_cases he : e.1 = k
    · have hk : k ∉ rest.map Prod.fst := he ▸ (List.nodup_cons.mp hnd').1
      have hz := length_filter_key_zero rest k p hk
      by_cases hp : p e.2 = true <;>
        simp [List.filter_cons, he, jsGet, hp, hz]
    · have := ih (List.nodup_cons.mp hnd').2
      simpa [List.filter_cons, he, jsGet] using this

theorem countCalls_cleanCalls (env : Env) (s : List (String × TChange))
    (entries : List (Option Nat × List Nat)) (h : Nat)
    (hnd : (entries.map Prod.fst).Nodup) :
    countCalls (cleanCalls env s entries) h =
      (jsGet entries (some h)).elim 0
        (fun vs => if vsAllTrue env s vs then 1 else 0) := by
  unfold cleanCalls
  rw [countCalls_filterMap]
  rw [List.filter_filter]
  exact length_filter_key entries (some h) (vsAllTrue env s) hnd

/-! ### Lemmas about `getCallbacksWhichShouldBeExecuted` -/

theorem mem_keys_getCallbacksGo (R : Registry) (s : List (String × TChange))
    (groups : List (String × TCallbackConfig))
    (acc : List (Option Nat × List Nat)) (k : Option Nat) :
    k ∈ (getCallbacksGo R s groups acc).map Prod.fst ↔
      k ∈ acc.map Prod.fst ∨
        ∃ p ∈ groups, triggered R s p.1 = true ∧ p.2.callback = k := by
  induction groups generalizing acc with
  | nil => simp [getCallbacksGo]
  | cons g rest ih =>
    rcases g with ⟨gid, cfg⟩
    by_cases ht : triggered R s gid = true
    · rw [getCallbacksGo, if_pos ht, ih]
      rw [mem_keys_mapSet]
      constructor
      · rintro ((h | h) | h)
        · exact Or.inl h
        · exact Or.inr ⟨(gid, cfg), List.mem_cons_self _ _, ht, h.symm⟩
        · rcases h with ⟨p, hp, hq⟩
          exact Or.inr ⟨p, List.mem_cons_of_mem _ hp, hq⟩
      · rintro (h | ⟨p, hp, hq⟩)
        · exact Or.inl (Or.inl h)
        · rcases List.mem_cons.mp hp with rfl | hp
          · exact Or.inl (Or.inr hq.2.symm)
          · exact Or.inr ⟨p, hp, hq⟩
    · rw [getCallbacksGo, if_neg ht, ih]
      constructor
      · rintro (h | ⟨p, hp, hq⟩)
        · exact Or.inl h
        · exact Or.inr ⟨p, List.mem_cons_of_mem _ hp, hq⟩
      · rintro (h | ⟨p, hp, hq⟩)
        · exact Or.inl h
        · rcases List.mem_cons.mp hp with rfl | hp
          · exact absurd hq.1 ht
          · exact Or.inr ⟨p, hp, hq⟩

theorem nodup_keys_getCallbacksGo (R : Registry) (s : List (String × TChange))
    (groups : List (String × TCallbackConfig))
    (acc : List (Option Nat × List Nat))
    (hnd : (acc.map Prod.fst).Nodup) :
    ((getCallbacksGo R s groups acc).map Prod.fst).Nodup := by
  induction groups generalizing acc with
  | nil => exact hnd
  | cons g rest ih =>
    rcases g with ⟨gid, cfg⟩
    by_cases ht : triggered R s gid = true
    · rw [getCallbacksGo, if_pos ht]
      exact ih _ (nodup_keys_mapSet _ _ _ hnd)
    · rw [getCallbacksGo, if_neg ht]
      exact ih _ hnd

theorem validators_mono_getCallbacksGo (R : Registry)
    (s : List (String × TChange))
    (groups : List (String × TCallbackConfig))
    (acc : List (Option Nat × List Nat)) (k : Option Nat) {v : Nat}
    (h : v ∈ (jsGet acc k).getD []) :
    v ∈ (jsGet (getCallbacksGo R s groups acc) k).getD [] := by
  induction groups generalizing acc with
  | nil => exact h
  | cons g rest ih =>
    rcases g with ⟨gid, cfg⟩
    by_cases ht : triggered R s gid = true
    · rw [getCallbacksGo, if_pos ht]
      apply ih
      by_cases hk : k = cfg.callback
      · subst hk
        rw [jsGet_mapSet_self]
        cases hv : cfg.validator with
        | none => simpa [hv] using h
        | some v' => simpa [hv] using mem_addIfAbsent_mono v' h
      · rwa [jsGet_mapSet_ne _ _ _ _ hk]
    · rw [getCallbacksGo, if_neg ht]
      exact ih _ h

theorem validator_added_getCallbacksGo (R : Registry)
    (s : List (String × TChange))
    (groups : List (String × TCallbackConfig))
    (acc : List (Option Nat × List Nat))
    {gid : String} {cfg : TCallbackConfig} {v : Nat}
    (hmem : (gid, cfg) ∈ groups) (ht : triggered R s gid = true)
    (hv : cfg.validator = some v) :
    v ∈ (jsGet (getCallbacksGo R s groups acc) cfg.callback).getD [] := by
  induction groups generalizing acc with
  | nil => cases hmem
  | cons g rest ih =>
    rcases List.mem_cons.mp hmem with h | h
    · subst h
      rw [getCallbacksGo, if_pos ht]
      apply validators_mono_getCallbacksGo
      rw [jsGet_mapSet_self, hv]
      simpa using mem_addIfAbsent_self _ v
    · rcases g with ⟨gid', cfg'⟩
      by_cases ht' : triggered R s gid' = true
      · rw [getCallbacksGo, if_pos ht']
        exact ih _ h
      · rw [getCallbacksGo, if_neg ht']
        exact ih _ h

/-! ### Lemmas about `execLoop` -/

theorem evalValidators_noThrow (env : Env) (s : List (String × TChange))
    (vs : List Nat) (h : ∀ v ∈ vs, (env.validatorRun v s).isSome) :
    evalValidators env s vs = .ok (vsAllTrue env s vs) := by
  induction vs with
  | nil => rfl
  | cons v rest ih =>
    have hv := h v (List.mem_cons_self v rest)
    cases hr : env.validatorRun v s with
    | none => rw [hr] at hv; simp at hv
    | some b =>
      cases b
      · simp [evalValidators, hr, vsAllTrue]
      · have := ih fun v' hv' => h v' (List.mem_cons_of_mem _ hv')
        simp [evalValidators, hr, vsAllTrue, this]

theorem execLoop_clean (env : Env) (s : List (String × TChange))
    (entries : List (Option Nat × List Nat))
    (acc : List (Nat × List (String × TChange)))
    (hv : ∀ e ∈ entries, ∀ v ∈ e.2, (env.validatorRun v s).isSome)
    (hk : ∀ e ∈ entries, e.1.isSome)
    (hh : ∀ e ∈ entries, ∀ h, e.1 = some h → env.handlerThrows h s = false) :
    execLoop env s entries acc = ⟨acc ++ cleanCalls env s entries, true, false⟩ := by
  induction entries generalizing acc with
  | nil => simp [execLoop, cleanCalls]
  | cons e rest ih =>
    rcases e with ⟨cb, vs⟩
    have hv0 : ∀ v ∈ vs, (env.validatorRun v s).isSome :=
      fun v hmem => hv _ (List.mem_cons_self _ _) v hmem
    have ih' := fun acc' => ih acc' (fun e he => hv e (List.mem_cons_of_mem _ he))
      (fun e he => hk e (List.mem_cons_of_mem _ he))
      (fun e he => hh e (List.mem_cons_of_mem _ he))
    simp only [execLoop]
    rw [evalValidators_noThrow env s vs hv0]
    cases hall : vsAllTrue env s vs
    · simpa [cleanCalls, List.filter_cons, hall] using ih' acc
    · obtain ⟨h, hcb⟩ :=
        Option.isSome_iff_exists.mp (hk _ (List.mem_cons_self _ _))

      subst hcb
      have hth := hh _ (List.mem_cons_self _ _) h rfl
      simp only [hth, if_false, Bool.false_eq_true]
      rw [ih' (acc ++ [(h, s)])]
      simp [cleanCalls, List.filter_cons, hall]

theorem execLoop_append (env : Env) (s : List (String × TChange))
    (pre rest : List (Option Nat × List Nat))
    (acc : List (Nat × List (String × TChange)))
    (hv : ∀ e ∈ pre, ∀ v ∈ e.2, (env.validatorRun v s).isSome)
    (hk : ∀ e ∈ pre, e.1.isSome)
    (hh : ∀ e ∈ pre, ∀ h, e.1 = some h → env.handlerThrows h s = false) :
    execLoop env s (pre ++ rest) acc =
      execLoop env s rest (acc ++ cleanCalls env s pre) := by
  induction pre generalizing acc with
  | nil => simp [cleanCalls]
  | cons e pr ih =>
    rcases e with ⟨cb, vs⟩
    have hv0 : ∀ v ∈ vs, (env.validatorRun v s).isSome :=
      fun v hmem => hv _ (List.mem_cons_self _ _) v hmem
    have ih' := fun acc' => ih acc' (fun e he => hv e (List.mem_cons_of_mem _ he))
      (fun e he => hk e (List.mem_cons_of_mem _ he))
      (fun e he => hh e (List.mem_cons_of_mem _ he))
    rw [List.cons_append]
    simp only [execLoop]
    rw [evalValidators_noThrow env s vs hv0]
    cases hall : vsAllTrue env s vs
    · simpa [cleanCalls, List.filter_cons, hall] using ih' acc
    · obtain ⟨h, hcb⟩ :=
        Option.isSome_iff_exists.mp (hk _ (List.mem_cons_self _ _))
      subst hcb
      have hth := hh _ (List.mem_cons_self _ _) h rfl
      simp only [hth, if_false, Bool.false_eq_true]
      rw [ih' (acc ++ [(h, s)])]
      simp [cleanCalls, List.filter_cons, hall]

/-! ### Lemmas for the no-change cycle -/

theorem triggered_eq_false (R : Registry) (s : List (String × TChange))
    (gid : String) (h : ∀ e ∈ s, e.2.didChange = false) :
    triggered R s gid = false := by
  unfold triggered
  rw [List.any_eq_false]
  intro e he
  simp [h e he]

theorem getCallbacksGo_untriggered (R : Registry) (s : List (String × TChange))
    (groups : List (String × TCallbackConfig))
    (acc : List (Option Nat × List Nat))
    (h : ∀ gid, triggered R s gid = false) :
    getCallbacksGo R s groups acc = acc := by
  induction groups with
  | nil => rfl
  | cons g rest ih =>
    rcases g with ⟨gid, cfg⟩
    rw [getCallbacksGo, if_neg (by simp [h gid])]
    exact ih

/-! ### Order properties of the JS string comparator -/

theorem strLeChars_total : ∀ xs ys : List Char,
    strLeChars xs ys = true ∨ strLeChars ys xs = true := by
  intro xs
  induction xs with
  | nil => intro ys; left; rfl
  | cons a as ih =>
    intro ys
    cases ys with
    | nil => right; rfl
    | cons b bs =>
      rcases Nat.lt_trichotomy a.toNat b.toNat with h | h | h
      · left; simp [strLeChars, h]
      · rcases ih bs with hc | hc
        · left; simp [strLeChars, h, hc]
        · right; simp [strLeChars, h.symm, hc]
      · right; simp [strLeChars, h]

theorem strLeChars_trans : ∀ xs ys zs : List Char,
    strLeChars xs ys = true → strLeChars ys zs = true →
    strLeChars xs zs = true := by
  intro xs
  induction xs with
  | nil => intro ys zs _ _; rfl
  | cons a as ih =>
    intro ys zs h1 h2
    cases ys with
    | nil => simp [strLeChars] at h1
    | cons b bs =>
      cases zs with
      | nil => simp [strLeChars] at h2
      | cons c cs =>
        simp only [strLeChars] at h1 h2 ⊢
        by_cases hab : a.toNat < b.toNat
        · by_cases hbc : b.toNat < c.toNat
          · rw [if_pos (by omega : a.toNat < c.toNat)]
          · by_cases hcb : c.toNat < b.toNat
            · rw [if_neg hbc, if_pos hcb] at h2
              exact Bool.noConfusion h2
            · rw [if_pos (by omega : a.toNat < c.toNat)]
        · by_cases hba : b.toNat < a.toNat
          · rw [if_neg hab, if_pos hba] at h1
            exact Bool.noConfusion h1
          · rw [if_neg hab, if_neg hba] at h1
            by_cases hbc : b.toNat < c.toNat
            · rw [if_pos (by omega : a.toNat < c.toNat)]
            · by_cases hcb : c.toNat < b.toNat
              · rw [if_neg hbc, if_pos hcb] at h2
                exact Bool.noConfusion h2
              · rw [if_neg hbc, if_neg hcb] at h2
                rw [if_neg (by omega : ¬a.toNat < c.toNat),
                  if_neg (by omega : ¬c.toNat < a.toNat)]
                exact ih bs cs h1 h2

theorem strLeChars_antisymm : ∀ xs ys : List Char,
    strLeChars xs ys = true → strLeChars ys xs = true → xs = ys := by
  intro xs
  induction xs with
  | nil =>
    intro ys h1 h2
    cases ys with
    | nil => rfl
    | cons b bs => simp [strLeChars] at h2
  | cons a as ih =>
    intro ys h1 h2
    cases ys with
    | nil => simp [strLeChars] at h1
    | cons b bs =>
      simp only [strLeChars] at h1 h2
      by_cases hab : a.toNat < b.toNat
      · rw [if_neg (by omega), if_pos hab] at h2
        exact Bool.noConfusion h2
      · by_cases hba : b.toNat < a.toNat
        · rw [if_neg hab, if_pos hba] at h1
          exact Bool.noConfusion h1
        · rw [if_neg hab, if_neg hba] at h1
          rw [if_neg hba, if_neg hab] at h2
          have hn : a.toNat = b.toNat := by omega
          have hv : a.val.toNat = b.val.toNat := hn
          have hchar : a = b := Char.ext (UInt32.ext hv)
          rw [hchar, ih bs h1 h2]

theorem jsStrLe_total (a b : String) :
    jsStrLe a b = true ∨ jsStrLe b a = true :=
  strLeChars_total a.data b.data

theorem jsStrLe_trans {a b c : String}
    (h1 : jsStrLe a b = true) (h2 : jsStrLe b c = true) : jsStrLe a c = true :=
  strLeChars_trans a.data b.data c.data h1 h2

theorem jsStrLe_antisymm {a b : String}
    (h1 : jsStrLe a b = true) (h2 : jsStrLe b a = true) : a = b :=
  String.ext (strLeChars_antisymm a.data b.data h1 h2)

instance : IsTotal String fun a b => jsStrLe a b = true :=
  ⟨jsStrLe_total⟩

instance : IsTrans String fun a b => jsStrLe a b = true :=
  ⟨fun _ _ _ => jsStrLe_trans⟩

instance : IsAntisymm String fun a b => jsStrLe a b = true :=
  ⟨fun _ _ => jsStrLe_antisymm⟩

/-- Sorting two lists that are permutations of each other yields the same
sorted list, hence order (and nothing else) is irrelevant to the key. -/
theorem sortStrings_perm_eq {l1 l2 : List String} (hp : l1.Perm l2) :
    sortStrings l1 = sortStrings l2 := by
  apply List.eq_of_perm_of_sorted
    (r := fun a b => jsStrLe a b = true)
  · exact (List.perm_insertionSort _ l1).trans
      (hp.trans (List.perm_insertionSort _ l2).symm)
  · exact List.sorted_insertionSort _ l1
  · exact List.sorted_insertionSort _ l2

/-- Permutation invariance of the group key. -/
theorem groupIdOf_perm {l1 l2 : List String} (hp : l1.Perm l2) :
    groupIdOf l1 = groupIdOf l2 := by
  unfold groupIdOf
  rw [sortStrings_perm_eq hp]

/-! ### Lemmas about `executeCallbacks` (the manual path) -/

theorem mem_keys_collectAllGo_mono
    (groups : List (String × TCallbackConfig))
    (acc : List (Option Nat × List (Option Nat)) × List String)
    {k : Option Nat} (h : k ∈ acc.1.map Prod.fst) :
    k ∈ (collectAllGo groups acc).1.map Prod.fst := by
  induction groups generalizing acc with
  | nil => exact h
  | cons g rest ih =>
    rcases g with ⟨gid, cfg⟩
    rcases acc with ⟨callbacks, attributes⟩
    rw [collectAllGo]
    apply ih
    simpa using (mem_keys_mapSet callbacks cfg.callback k _).mpr (Or.inl h)

theorem mem_keys_collectAllGo
    (groups : List (String × TCallbackConfig))
    (acc : List (Option Nat × List (Option Nat)) × List String)
    {gid : String} {cfg : TCallbackConfig} (h : (gid, cfg) ∈ groups) :
    cfg.callback ∈ (collectAllGo groups acc).1.map Prod.fst := by
  induction groups generalizing acc with
  | nil => cases h
  | cons g rest ih =>
    rcases List.mem_cons.mp h with rfl | hm
    · rcases acc with ⟨callbacks, attributes⟩
      rw [collectAllGo]
      apply mem_keys_collectAllGo_mono
      simpa using (mem_keys_mapSet callbacks cfg.callback cfg.callback _).mpr
        (Or.inr rfl)
    · rcases g with ⟨gid', cfg'⟩
      rcases acc with ⟨callbacks, attributes⟩
      rw [collectAllGo]
      exact ih _ hm

theorem nodup_keys_collectAllGo
    (groups : List (String × TCallbackConfig))
    (acc : List (Option Nat × List (Option Nat)) × List String)
    (hnd : (acc.1.map Prod.fst).Nodup) :
    ((collectAllGo groups acc).1.map Prod.fst).Nodup := by
  induction groups generalizing acc with
  | nil => exact hnd
  | cons g rest ih =>
    rcases g with ⟨gid, cfg⟩
    rcases acc with ⟨callbacks, attributes⟩
    rw [collectAllGo]
    exact ih _ (nodup_keys_mapSet _ _ _ hnd)

theorem mem_attrs_collectAllGo_mono
    (groups : List (String × TCallbackConfig))
    (acc : List (Option Nat × List (Option Nat)) × List String)
    {a : String} (h : a ∈ acc.2) : a ∈ (collectAllGo groups acc).2 := by
  induction groups generalizing acc with
  | nil => exact h
  | cons g rest ih =>
    rcases g with ⟨gid, cfg⟩
    rcases acc with ⟨callbacks, attributes⟩
    rw [collectAllGo]
    exact ih _ (mem_foldl_addIfAbsent_mono _ h)

theorem mem_attrs_collectAllGo
    (groups : List (String × TCallbackConfig))
    (acc : List (Option Nat × List (Option Nat)) × List String)
    {gid : String} {cfg : TCallbackConfig} {a : String}
    (h : (gid, cfg) ∈ groups) (ha : a ∈ jsSplitPipe gid) :
    a ∈ (collectAllGo groups acc).2 := by
  induction groups generalizing acc with
  | nil => cases h
  | cons g rest ih =>
    rcases List.mem_cons.mp h with rfl | hm
    · rcases acc with ⟨callbacks, attributes⟩
      rw [collectAllGo]
      exact mem_attrs_collectAllGo_mono _ _
        (mem_foldl_addIfAbsent_of_mem _ _ ha)
    · rcases g with ⟨gid', cfg'⟩
      rcases acc with ⟨callbacks, attributes⟩
      rw [collectAllGo]
      exact ih _ hm

theorem execAllLoop_skip (env : Env) (s : List (String × TChange))
    (entries : List (Option Nat × List (Option Nat)))
    (acc : List (Nat × List (String × TChange)))
    (hk : ∀ e ∈ entries, e.1.isSome)
    (hh : ∀ e ∈ entries, ∀ h, e.1 = some h → env.handlerThrows h s = false) :
    execAllLoop env s true entries acc =
      ⟨acc ++ entries.filterMap fun e => e.1.map fun h => (h, s),
        false, false⟩ := by
  induction entries generalizing acc with
  | nil => simp [execAllLoop]
  | cons e rest ih =>
    rcases e with ⟨cb, vs⟩
    have ih' := fun acc' => ih acc'
      (fun e he => hk e (List.mem_cons_of_mem _ he))
      (fun e he => hh e (List.mem_cons_of_mem _ he))
    obtain ⟨h, hcb⟩ :=
      Option.isSome_iff_exists.mp (hk _ (List.mem_cons_self _ _))
    subst hcb
    have hth := hh _ (List.mem_cons_self _ _) h rfl
    simp only [execAllLoop, hth, if_false, Bool.false_eq_true,
      List.filterMap_cons, Option.map_some']
    rw [ih' (acc ++ [(h, s)])]
    simp

theorem length_filter_key_simple {K V : Type} [DecidableEq K]
    (m : List (K × V)) (k : K) (hnd : (m.map Prod.fst).Nodup) :
    (m.filter fun e => decide (e.1 = k)).length =
      (jsGet m k).elim 0 (fun _ => 1) := by
  have h := length_filter_key m k (fun _ => true) hnd
  simpa using h

theorem syntheticSummary_fields (R : Registry) (component : String → JSValue) :
    ∀ e ∈ syntheticSummary R component,
      e.2.previousValue = e.2.currentValue ∧ e.2.firstChange = false ∧
        e.2.didChange = false := by
  intro e he
  unfold syntheticSummary getChangesSummary syntheticSimpleChanges at he
  rw [List.map_map, List.mem_map] at he
  obtain ⟨a, _, rfl⟩ := he
  simp [didPropertyChange, sameValue]

theorem keys_syntheticSummary (R : Registry) (component : String → JSValue) :
    (syntheticSummary R component).map Prod.fst =
      (collectAllGo R.callbacksByGroup ([], [])).2 := by
  unfold syntheticSummary getChangesSummary syntheticSimpleChanges
  generalize (collectAllGo R.callbacksByGroup ([], [])).2 = l
  induction l with
  | nil => rfl
  | cons a rest ih => simpa using ih

/-! ### Claim theorems -/

/-- C2: the derived `didChange` flag is false whenever the first-observation
flag is true or the record is absent, regardless of value equality;
otherwise it is true exactly when `currentValue` and `previousValue` are
not identical under same-value identity comparison (`Object.is`, which on
the modelled value universe distinguishes objects by reference, not by
structure). -/
theorem c2_didChange_rule : ∀ c : SimpleChange,
    didPropertyChange none = false ∧
    (c.firstChange = true → didPropertyChange (some c) = false) ∧
    (c.firstChange = false →
      didPropertyChange (some c) =
        !sameValue c.currentValue c.previousValue) := by
  intro c
  refine ⟨rfl, fun h => by simp [didPropertyChange, h], fun h => ?_⟩
  cases hs : sameValue c.currentValue c.previousValue <;>
    simp [didPropertyChange, h, hs]

theorem c2_didChange_rule_witness :
    didPropertyChange (some ⟨.objRef 1, .objRef 2, true⟩) = false ∧
    didPropertyChange (some ⟨.objRef 1, .objRef 2, false⟩) =
      !sameValue (JSValue.objRef 2) (JSValue.objRef 1) :=
  ⟨(c2_didChange_rule ⟨.objRef 1, .objRef 2, true⟩).2.1 rfl,
    (c2_didChange_rule ⟨.objRef 1, .objRef 2, false⟩).2.2 rfl⟩

/-- C1: when a registered group has at least one of its fields reported
with `didChange = true`, its handler runs exactly once in the cycle —
however many of its fields changed and however many triggered groups
share the handler — and every handler invocation of the cycle receives
the full changes summary, not a subset.  (Hypotheses: every registered
callback is a function, validators all approve and nothing throws —
validator gating and exceptions are claims C3 and C6.) -/
theorem c1_handler_invoked_once_with_full_batch
    (env : Env) (R : Registry) (s : List (String × TChange))
    (gid : String) (cfg : TCallbackConfig) (h : Nat)
    (hmem : (gid, cfg) ∈ R.callbacksByGroup)
    (hcb : cfg.callback = some h)
    (ht : triggered R s gid = true)
    (hwf : ∀ p ∈ R.callbacksByGroup, (p.2.callback).isSome)
    (hv : ∀ v, env.validatorRun v s = some true)
    (hh : ∀ c, env.handlerThrows c s = false) :
    countCalls (executeChangesCallbacks env R s).calls h = 1 ∧
    (∀ call ∈ (executeChangesCallbacks env R s).calls, call.2 = s) ∧
    (executeChangesCallbacks env R s).rerender = true := by
  have hkeys : ∀ e ∈ getCallbacksWhichShouldBeExecuted R s, e.1.isSome := by
    intro e he
    have hk : e.1 ∈ (getCallbacksWhichShouldBeExecuted R s).map Prod.fst :=
      List.mem_map_of_mem Prod.fst he
    rcases (mem_keys_getCallbacksGo R s R.callbacksByGroup [] e.1).mp hk with
      hk | ⟨p, hp, _, hpc⟩
    · simp at hk
    · exact hpc ▸ hwf p hp
  have hclean := execLoop_clean env s (getCallbacksWhichShouldBeExecuted R s) []
    (fun e _ v _ => by simp [hv v]) hkeys (fun e _ c _ => hh c)
  have hout : executeChangesCallbacks env R s =
      ⟨cleanCalls env s (getCallbacksWhichShouldBeExecuted R s), true, false⟩ := by
    rw [executeChangesCallbacks, hclean]
    simp
  have hnd : ((getCallbacksWhichShouldBeExecuted R s).map Prod.fst).Nodup :=
    nodup_keys_getCallbacksGo R s R.callbacksByGroup [] (by simp)
  have hmemk : (some h) ∈ (getCallbacksWhichShouldBeExecuted R s).map Prod.fst :=
    (mem_keys_getCallbacksGo R s R.callbacksByGroup [] (some h)).mpr
      (Or.inr ⟨(gid, cfg), hmem, ht, hcb⟩)
  obtain ⟨vs, hvs⟩ := exists_jsGet_of_mem_keys hmemk
  have hall : vsAllTrue env s vs = true := by
    unfold vsAllTrue
    rw [List.all_eq_true]
    intro v _
    simp [hv v]
  refine ⟨?_, ?_, ?_⟩
  · rw [hout]
    rw [countCalls_cleanCalls env s _ h hnd, hvs]
    simp [hall]
  · intro call hcall
    rw [hout] at hcall
    unfold cleanCalls at hcall
    rw [List.mem_filterMap] at hcall
    obtain ⟨e, _, he⟩ := hcall
    rw [Option.map_eq_some'] at he
    obtain ⟨x, _, rfl⟩ := he
    rfl
  · rw [hout]

theorem c1_handler_invoked_once_with_full_batch_witness :
    countCalls (executeChangesCallbacks
      ⟨fun _ _ => some true, fun _ _ => false⟩
      ⟨[("a|b", ["a", "b"])], [("a|b", ⟨some 7, none⟩)]⟩
      [("a", ⟨.str "1", .str "2", false, true⟩),
        ("b", ⟨.str "3", .str "4", false, true⟩)]).calls 7 = 1 :=
  (c1_handler_invoked_once_with_full_batch
    ⟨fun _ _ => some true, fun _ _ => false⟩
    ⟨[("a|b", ["a", "b"])], [("a|b", ⟨some 7, none⟩)]⟩
    [("a", ⟨.str "1", .str "2", false, true⟩),
      ("b", ⟨.str "3", .str "4", false, true⟩)]
    "a|b" ⟨some 7, none⟩ 7 (by decide) rfl (by decide) (by decide)
    (fun _ => rfl) (fun _ => rfl)).1

/-- C5: on a cycle whose batch has no field with `didChange = true`, in
strict mode (the constructor default) no handler runs and the re-render
signal (`detectChanges`) is not invoked at all; in non-strict mode the
dispatch still completes with zero handler invocations and the re-render
signal is still invoked. -/
theorem c5_quiet_cycle_strict_vs_lenient
    (env : Env) (R : Registry) (sc : List (String × SimpleChange))
    (hquiet : ∀ e ∈ getChangesSummary sc, e.2.didChange = false) :
    manageChangesCore env R true sc =
      (getChangesSummary sc, ⟨[], false, false⟩) ∧
    (manageChangesCore env R false sc).1 = getChangesSummary sc ∧
    (manageChangesCore env R false sc).2 = ⟨[], true, false⟩ := by
  have hsp : ((getChangesSummary sc).any fun e => e.2.didChange) = false := by
    rw [List.any_eq_false]
    intro e he
    simp [hquiet e he]
  have hempty : getCallbacksWhichShouldBeExecuted R (getChangesSummary sc) = [] :=
    getCallbacksGo_untriggered R _ R.callbacksByGroup []
      (fun gid => triggered_eq_false R _ gid hquiet)
  refine ⟨?_, rfl, ?_⟩
  · unfold manageChangesCore
    simp [hsp]
  · unfold manageChangesCore
    simp only [Bool.false_and, Bool.not_false, if_false, Bool.false_eq_true]
    rw [executeChangesCallbacks, hempty]
    rfl

theorem c5_quiet_cycle_strict_vs_lenient_witness :
    manageChangesCore ⟨fun _ _ => some true, fun _ _ => false⟩
      ⟨[("a", ["a"])], [("a", ⟨some 7, none⟩)]⟩ true
      [("a", ⟨.str "v", .str "v", false⟩)] =
      ([("a", ⟨.str "v", .str "v", false, false⟩)], ⟨[], false, false⟩) ∧
    (manageChangesCore ⟨fun _ _ => some true, fun _ _ => false⟩
      ⟨[("a", ["a"])], [("a", ⟨some 7, none⟩)]⟩ false
      [("a", ⟨.str "v", .str "v", false⟩)]).2 = ⟨[], true, false⟩ := by
  have h := c5_quiet_cycle_strict_vs_lenient
    ⟨fun _ _ => some true, fun _ _ => false⟩
    ⟨[("a", ["a"])], [("a", ⟨some 7, none⟩)]⟩
    [("a", ⟨.str "v", .str "v", false⟩)] (by decide)
  exact ⟨h.1, h.2.2⟩

/-- C3: a handler reachable through two (or more) overlapping triggered
groups, each carrying a distinct validator, fires at most once; it fires
only if every collected validator returns true on the full batch; a
validator returning false suppresses only that handler in the cycle —
any other triggered handler whose collected validators all approve still
fires exactly once, and the re-render signal still runs. -/
theorem c3_validator_conjunction
    (env : Env) (R : Registry) (s : List (String × TChange))
    (g1 g2 : String) (h v1 v2 : Nat)
    (hm1 : (g1, ⟨some h, some v1⟩) ∈ R.callbacksByGroup)
    (hm2 : (g2, ⟨some h, some v2⟩) ∈ R.callbacksByGroup)
    (ht1 : triggered R s g1 = true) (ht2 : triggered R s g2 = true)
    (hvne : v1 ≠ v2)
    (hwf : ∀ p ∈ R.callbacksByGroup, (p.2.callback).isSome)
    (hval : ∀ v, (env.validatorRun v s).isSome)
    (hh : ∀ c, env.handlerThrows c s = false) :
    countCalls (executeChangesCallbacks env R s).calls h ≤ 1 ∧
    (countCalls (executeChangesCallbacks env R s).calls h = 1 →
      env.validatorRun v1 s = some true ∧ env.validatorRun v2 s = some true) ∧
    (env.validatorRun v1 s = some false →
      countCalls (executeChangesCallbacks env R s).calls h = 0) ∧
    (executeChangesCallbacks env R s).rerender = true ∧
    (∀ g' cfg' h', (g', cfg') ∈ R.callbacksByGroup →
      triggered R s g' = true → cfg'.callback = some h' →
      vsAllTrue env s
        ((jsGet (getCallbacksWhichShouldBeExecuted R s) (some h')).getD []) =
        true →
      countCalls (executeChangesCallbacks env R s).calls h' = 1) := by
  have hkeys : ∀ e ∈ getCallbacksWhichShouldBeExecuted R s, e.1.isSome := by
    intro e he
    have hk : e.1 ∈ (getCallbacksWhichShouldBeExecuted R s).map Prod.fst :=
      List.mem_map_of_mem Prod.fst he
    rcases (mem_keys_getCallbacksGo R s R.callbacksByGroup [] e.1).mp hk with
      hk | ⟨p, hp, _, hpc⟩
    · simp at hk
    · exact hpc ▸ hwf p hp
  have hclean := execLoop_clean env s (getCallbacksWhichShouldBeExecuted R s) []
    (fun e _ v _ => hval v) hkeys (fun e _ c _ => hh c)
  have hout : executeChangesCallbacks env R s =
      ⟨cleanCalls env s (getCallbacksWhichShouldBeExecuted R s), true, false⟩ := by
    rw [executeChangesCallbacks, hclean]
    simp
  have hnd : ((getCallbacksWhichShouldBeExecuted R s).map Prod.fst).Nodup :=
    nodup_keys_getCallbacksGo R s R.callbacksByGroup [] (by simp)
  have hmemk : (some h) ∈ (getCallbacksWhichShouldBeExecuted R s).map Prod.fst :=
    (mem_keys_getCallbacksGo R s R.callbacksByGroup [] (some h)).mpr
      (Or.inr ⟨(g1, ⟨some h, some v1⟩), hm1, ht1, rfl⟩)
  obtain ⟨vsh, hvsh⟩ := exists_jsGet_of_mem_keys hmemk
  have hv1m : v1 ∈ vsh := by
    have := validator_added_getCallbacksGo R s R.callbacksByGroup []
      hm1 ht1 rfl
    rwa [← getCallbacksWhichShouldBeExecuted, hvsh] at this
  have hv2m : v2 ∈ vsh := by
    have := validator_added_getCallbacksGo R s R.callbacksByGroup []
      hm2 ht2 rfl
    rwa [← getCallbacksWhichShouldBeExecuted, hvsh] at this
  have hcount : countCalls (executeChangesCallbacks env R s).calls h =
      if vsAllTrue env s vsh then 1 else 0 := by
    rw [hout, countCalls_cleanCalls env s _ h hnd, hvsh]
    rfl
  refine ⟨?_, ?_, ?_, ?_, ?_⟩
  · rw [hcount]
    split_ifs <;> omega
  · intro hone
    rw [hcount] at hone
    have hall : vsAllTrue env s vsh = true := by
      by_contra hfalse
      rw [if_neg hfalse] at hone
      exact zero_ne_one hone
    rw [vsAllTrue, List.all_eq_true] at hall
    exact ⟨of_decide_eq_true (hall v1 hv1m),
      of_decide_eq_true (hall v2 hv2m)⟩
  · intro hfalse
    rw [hcount]
    rw [if_neg ?hneg]
    case hneg =>
      intro hall
      rw [vsAllTrue, List.all_eq_true] at hall
      have := of_decide_eq_true (hall v1 hv1m)
      rw [hfalse] at this
      exact Bool.noConfusion (Option.some.inj this)
  · rw [hout]
  · intro g' cfg' h' hm' ht' hcb' hall'
    have hmemk' : (some h') ∈
        (getCallbacksWhichShouldBeExecuted R s).map Prod.fst :=
      (mem_keys_getCallbacksGo R s R.callbacksByGroup [] (some h')).mpr
        (Or.inr ⟨(g', cfg'), hm', ht', hcb'⟩)
    obtain ⟨vs', hvs'⟩ := exists_jsGet_of_mem_keys hmemk'
    rw [hout, countCalls_cleanCalls env s _ h' hnd, hvs']
    rw [hvs'] at hall'
    have hall2 : vsAllTrue env s vs' = true := by simpa using hall'
    simp [hall2]

theorem c3_validator_conjunction_witness :
    countCalls (executeChangesCallbacks
      ⟨fun v _ => some (decide (v ≠ 1)), fun _ _ => false⟩
      ⟨[("a", ["a"]), ("b", ["b"]), ("c", ["c"])],
        [("a", ⟨some 7, some 1⟩), ("b", ⟨some 7, some 2⟩),
          ("c", ⟨some 8, none⟩)]⟩
      [("a", ⟨.str "1", .str "2", false, true⟩),
        ("b", ⟨.str "1", .str "2", false, true⟩),
        ("c", ⟨.str "1", .str "2", false, true⟩)]).calls 7 = 0 ∧
    countCalls (executeChangesCallbacks
      ⟨fun v _ => some (decide (v ≠ 1)), fun _ _ => false⟩
      ⟨[("a", ["a"]), ("b", ["b"]), ("c", ["c"])],
        [("a", ⟨some 7, some 1⟩), ("b", ⟨some 7, some 2⟩),
          ("c", ⟨some 8, none⟩)]⟩
      [("a", ⟨.str "1", .str "2", false, true⟩),
        ("b", ⟨.str "1", .str "2", false, true⟩),
        ("c", ⟨.str "1", .str "2", false, true⟩)]).calls 8 = 1 := by
  have h := c3_validator_conjunction
    ⟨fun v _ => some (decide (v ≠ 1)), fun _ _ => false⟩
    ⟨[("a", ["a"]), ("b", ["b"]), ("c", ["c"])],
      [("a", ⟨some 7, some 1⟩), ("b", ⟨some 7, some 2⟩),
        ("c", ⟨some 8, none⟩)]⟩
    [("a", ⟨.str "1", .str "2", false, true⟩),
      ("b", ⟨.str "1", .str "2", false, true⟩),
      ("c", ⟨.str "1", .str "2", false, true⟩)]
    "a" "b" 7 1 2 (by decide) (by decide) (by decide) (by decide)
    (by decide) (by decide) (fun _ => rfl) (fun _ => rfl)
  exact ⟨h.2.2.1 rfl,
    h.2.2.2.2 "c" ⟨some 8, none⟩ 8 (by decide) (by decide) rfl (by decide)⟩

/-- C6: if a validator or a handler throws during a cycle's dispatch, the
exception propagates to the caller (`threw = true`) with no per-handler
isolation: the handlers after the failing one are not invoked (the call
trace stops at the failure) and the re-render signal (`detectChanges`)
is not invoked for that cycle. -/
theorem c6_throw_propagates
    (env : Env) (R : Registry) (s : List (String × TChange))
    (pre post : List (Option Nat × List Nat)) (c : Option Nat) (vs : List Nat)
    (hsplit : getCallbacksWhichShouldBeExecuted R s = pre ++ (c, vs) :: post)
    (hpreV : ∀ e ∈ pre, ∀ v ∈ e.2, (env.validatorRun v s).isSome)
    (hpreK : ∀ e ∈ pre, e.1.isSome)
    (hpreH : ∀ e ∈ pre, ∀ h, e.1 = some h → env.handlerThrows h s = false) :
    (evalValidators env s vs = .error () →
      executeChangesCallbacks env R s = ⟨cleanCalls env s pre, false, true⟩) ∧
    (∀ h, c = some h → evalValidators env s vs = .ok true →
      env.handlerThrows h s = true →
      executeChangesCallbacks env R s =
        ⟨cleanCalls env s pre ++ [(h, s)], false, true⟩) := by
  have happ := execLoop_append env s pre ((c, vs) :: post) []
    hpreV hpreK hpreH
  constructor
  · intro herr
    rw [executeChangesCallbacks, hsplit, happ]
    simp only [execLoop, herr, List.nil_append]
  · intro h hc hok hth
    subst hc
    rw [executeChangesCallbacks, hsplit, happ]
    simp only [execLoop, hok, hth, if_true, List.nil_append]

theorem c6_throw_propagates_witness :
    executeChangesCallbacks ⟨fun _ _ => some true, fun h _ => decide (h = 0)⟩
      ⟨[("a", ["a"]), ("b", ["b"])],
        [("a", ⟨some 0, none⟩), ("b", ⟨some 1, none⟩)]⟩
      [("a", ⟨.str "1", .str "2", false, true⟩),
        ("b", ⟨.str "1", .str "2", false, true⟩)] =
      ⟨[(0, [("a", ⟨.str "1", .str "2", false, true⟩),
        ("b", ⟨.str "1", .str "2", false, true⟩)])], false, true⟩ :=
  (c6_throw_propagates ⟨fun _ _ => some true, fun h _ => decide (h = 0)⟩
    ⟨[("a", ["a"]), ("b", ["b"])],
      [("a", ⟨some 0, none⟩), ("b", ⟨some 1, none⟩)]⟩
    [("a", ⟨.str "1", .str "2", false, true⟩),
      ("b", ⟨.str "1", .str "2", false, true⟩)]
    [] [(some 1, [])] (some 0) [] (by decide) (by simp) (by simp)
    (by simp)).2 0 rfl rfl rfl

theorem keys_collectAllGo_cases
    (groups : List (String × TCallbackConfig))
    (acc : List (Option Nat × List (Option Nat)) × List String)
    (k : Option Nat) (h : k ∈ (collectAllGo groups acc).1.map Prod.fst) :
    k ∈ acc.1.map Prod.fst ∨ ∃ p ∈ groups, p.2.callback = k := by
  induction groups generalizing acc with
  | nil => exact Or.inl h
  | cons g rest ih =>
    rcases g with ⟨gid, cfg⟩
    rcases acc with ⟨callbacks, attributes⟩
    rw [collectAllGo] at h
    rcases ih _ h with hk | ⟨p, hp, hpc⟩
    · rcases (mem_keys_mapSet callbacks cfg.callback k _).mp
        (by simpa using hk) with h' | h'
      · exact Or.inl h'
      · exact Or.inr ⟨(gid, cfg), List.mem_cons_self _ _, h'.symm⟩
    · exact Or.inr ⟨p, List.mem_cons_of_mem _ hp, hpc⟩

/-- C7: the manual run-all-handlers-now action builds a synthetic batch in
which every registered field (recovered from every group key) is present
with `previousValue` equal to `currentValue`, not marked as a first
observation, hence `didChange = false`; with the skip-validators flag it
runs every registered handler exactly once with that full synthetic
batch — regardless of what any validator would return — and it never
invokes the re-render signal. -/
theorem c7_executeCallbacks_manual
    (env : Env) (R : Registry) (component : String → JSValue)
    (hwf : ∀ p ∈ R.callbacksByGroup, (p.2.callback).isSome)
    (hh : ∀ c, env.handlerThrows c (syntheticSummary R component) = false) :
    (executeCallbacks env R component true).rerender = false ∧
    (executeCallbacks env R component true).threw = false ∧
    (∀ e ∈ syntheticSummary R component,
      e.2.previousValue = e.2.currentValue ∧ e.2.firstChange = false ∧
        e.2.didChange = false) ∧
    (∀ p ∈ R.callbacksByGroup, ∀ a ∈ jsSplitPipe p.1,
      a ∈ (syntheticSummary R component).map Prod.fst) ∧
    (∀ p ∈ R.callbacksByGroup, ∀ h, p.2.callback = some h →
      countCalls (executeCallbacks env R component true).calls h = 1) ∧
    (∀ call ∈ (executeCallbacks env R component true).calls,
      call.2 = syntheticSummary R component) := by
  have hkeys : ∀ e ∈ (collectAllGo R.callbacksByGroup ([], [])).1,
      e.1.isSome := by
    intro e he
    have hk := List.mem_map_of_mem Prod.fst he
    rcases keys_collectAllGo_cases R.callbacksByGroup ([], []) e.1 hk with
      hk' | ⟨p, hp, hpc⟩
    · simp at hk'
    · exact hpc ▸ hwf p hp
  have hskip := execAllLoop_skip env (syntheticSummary R component)
    (collectAllGo R.callbacksByGroup ([], [])).1 []
    hkeys (fun e _ c _ => hh c)
  have hout : executeCallbacks env R component true =
      ⟨(collectAllGo R.callbacksByGroup ([], [])).1.filterMap fun e =>
          e.1.map fun h => (h, syntheticSummary R component),
        false, false⟩ := by
    rw [executeCallbacks, hskip]
    simp
  have hnd : ((collectAllGo R.callbacksByGroup ([], [])).1.map Prod.fst).Nodup :=
    nodup_keys_collectAllGo R.callbacksByGroup ([], []) (by simp)
  refine ⟨by rw [hout], by rw [hout],
    syntheticSummary_fields R component, ?_, ?_, ?_⟩
  · intro p hp a ha
    rcases p with ⟨gid, cfg⟩
    rw [keys_syntheticSummary]
    exact mem_attrs_collectAllGo R.callbacksByGroup ([], []) hp ha
  · intro p hp h hcb
    rcases p with ⟨gid, cfg⟩
    have hmemk : (some h) ∈
        (collectAllGo R.callbacksByGroup ([], [])).1.map Prod.fst := by
      have := mem_keys_collectAllGo R.callbacksByGroup ([], []) hp
      rwa [hcb] at this
    obtain ⟨vs, hvs⟩ := exists_jsGet_of_mem_keys hmemk
    rw [hout]
    show countCalls ((collectAllGo R.callbacksByGroup ([], [])).1.filterMap
      fun e => e.1.map fun x => (x, syntheticSummary R component)) h = 1
    rw [countCalls_filterMap _ (syntheticSummary R component) h]
    rw [length_filter_key_simple _ (some h) hnd, hvs]
    rfl
  · intro call hcall
    rw [hout] at hcall
    rw [List.mem_filterMap] at hcall
    obtain ⟨e, _, he⟩ := hcall
    rw [Option.map_eq_some'] at he
    obtain ⟨x, _, rfl⟩ := he
    rfl

theorem c7_executeCallbacks_manual_witness :
    countCalls (executeCallbacks ⟨fun _ _ => some false, fun _ _ => false⟩
      ⟨[("a", ["a"])], [("a", ⟨some 5, some 9⟩)]⟩
      (fun _ => .objRef 3) true).calls 5 = 1 ∧
    (executeCallbacks ⟨fun _ _ => some false, fun _ _ => false⟩
      ⟨[("a", ["a"])], [("a", ⟨some 5, some 9⟩)]⟩
      (fun _ => .objRef 3) true).rerender = false := by
  have h := c7_executeCallbacks_manual
    ⟨fun _ _ => some false, fun _ _ => false⟩
    ⟨[("a", ["a"])], [("a", ⟨some 5, some 9⟩)]⟩
    (fun _ => .objRef 3) (by decide) (fun _ => rfl)
  exact ⟨h.2.2.2.2.1 ("a", ⟨some 5, some 9⟩) (by decide) 5 rfl, h.1⟩

/-- C4 (counterexample): the claim fails for identical member-sets given
in different duplicate forms.  `["a","a"]` and `["a"]` have identical
members, yet the sorted-join key keeps duplicates, so the keys differ and
the two registrations coexist — the later one does not replace the
earlier. -/
theorem c4_duplicate_members_counterexample :
    (["a", "a"] : List String).dedup = (["a"] : List String).dedup ∧
    groupIdOf ["a", "a"] ≠ groupIdOf ["a"] ∧
    buildRegistryFromList [(["a"], .fn 1), (["a", "a"], .fn 2)] =
      .ok ⟨[("a", ["a"]), ("a|a", ["a"])],
        [("a", ⟨some 1, none⟩), ("a|a", ⟨some 2, none⟩)]⟩ := by
  exact ⟨by decide, by decide, by decide⟩

/-- C4 (amended): two registrations whose declared field lists are
permutations of one another (same members with the same multiplicities,
in any order — but not merely the same member-set, see the duplicate
counterexample) produce the same GroupKey; the mapping shape is the list
shape on singleton groups; and when two registrations share a GroupKey
the later one silently replaces the earlier in both registry maps,
leaving a single entry whose config is the later one's. -/
theorem c4_groupKey_amended
    (l1 l2 : List String) (cb1 v1 cb2 v2 : Option Nat) (hp : l1.Perm l2) :
    groupIdOf l1 = groupIdOf l2 ∧
    (∀ cfg : List (String × TDeclValue),
      getCallbacksConfigFromParameterObject cfg =
        getCallbacksConfigFromParameter (cfg.map fun e => ([e.1], e.2))) ∧
    buildRegistryFromList [(l1, .obj cb1 v1), (l2, .obj cb2 v2)] =
      .ok ⟨[(groupIdOf l1, jsSetOf (sortStrings l2))],
        [(groupIdOf l1, ⟨cb2, v2⟩)]⟩ := by
  have hs : sortStrings l1 = sortStrings l2 := sortStrings_perm_eq hp
  refine ⟨groupIdOf_perm hp, ?_, ?_⟩
  · intro cfg
    unfold getCallbacksConfigFromParameterObject getCallbacksConfigFromParameter
    rw [List.map_map]
    rfl
  · simp [buildRegistryFromList, computeCallbackConfigDerivatives,
      getCallbacksConfigFromParameter, groupIdOf, normalizeDecl,
      computeDerivativesGo, destructureConfig, mapSet, hs]

theorem c4_groupKey_amended_witness :
    groupIdOf ["b", "a"] = groupIdOf ["a", "b"] ∧
    buildRegistryFromList [(["b", "a"], .obj (some 1) none),
      (["a", "b"], .obj (some 2) none)] =
      .ok ⟨[(groupIdOf ["b", "a"], jsSetOf (sortStrings ["a", "b"]))],
        [(groupIdOf ["b", "a"], ⟨some 2, none⟩)]⟩ := by
  have h := c4_groupKey_amended ["b", "a"] ["a", "b"] (some 1) none (some 2)
    none (by decide)
  exact ⟨h.1, h.2.2⟩

/-- C9 (counterexample): a malformed callback declaration — a value that
is neither a function nor a config object — does not raise any error at
registry-build time: the build succeeds, storing an `undefined` callback;
the failure surfaces only at dispatch, where invoking the `undefined`
callback throws (`threw = true`). -/
theorem c9_no_build_error_counterexample :
    buildRegistryFromList [(["a"], .otherValue)] =
      .ok ⟨[("a", ["a"])], [("a", ⟨none, none⟩)]⟩ ∧
    executeChangesCallbacks ⟨fun _ _ => some true, fun _ _ => false⟩
      ⟨[("a", ["a"])], [("a", ⟨none, none⟩)]⟩
      [("a", ⟨.str "x", .str "y", false, true⟩)] = ⟨[], false, true⟩ := by
  exact ⟨by decide, by decide⟩

/-- C9 (amended): the builder performs no validation of callback
declarations.  A malformed non-nullish declaration builds successfully
into a registry whose callback is `undefined`, and the error is deferred
to dispatch time, where the cycle throws before any handler or the
re-render signal runs; only a nullish declaration happens to throw at
build time, as an incidental TypeError from destructuring rather than a
deliberate configuration check. -/
theorem c9_malformed_defer (props : List String) (env : Env)
    (s : List (String × TChange))
    (ht : triggered
      ⟨[(groupIdOf props, jsSetOf (sortStrings props))],
        [(groupIdOf props, ⟨none, none⟩)]⟩ s (groupIdOf props) = true) :
    buildRegistryFromList [(props, .otherValue)] =
      .ok ⟨[(groupIdOf props, jsSetOf (sortStrings props))],
        [(groupIdOf props, ⟨none, none⟩)]⟩ ∧
    buildRegistryFromList [(props, .nullish)] = .error () ∧
    executeChangesCallbacks env
      ⟨[(groupIdOf props, jsSetOf (sortStrings props))],
        [(groupIdOf props, ⟨none, none⟩)]⟩ s = ⟨[], false, true⟩ := by
  refine ⟨?_, ?_, ?_⟩
  · simp [buildRegistryFromList, computeCallbackConfigDerivatives,
      getCallbacksConfigFromParameter, normalizeDecl, computeDerivativesGo,
      destructureConfig, mapSet, groupIdOf]
  · simp [buildRegistryFromList, computeCallbackConfigDerivatives,
      getCallbacksConfigFromParameter, normalizeDecl, computeDerivativesGo,
      destructureConfig]
  · simp only [executeChangesCallbacks, getCallbacksWhichShouldBeExecuted,
      getCallbacksGo, ht, if_true]
    simp [mapSet, jsGet, execLoop, evalValidators]

theorem c9_malformed_defer_witness :
    buildRegistryFromList [(["a"], .otherValue)] =
      .ok ⟨[("a", ["a"])], [("a", ⟨none, none⟩)]⟩ ∧
    buildRegistryFromList [(["a"], .nullish)] = .error () ∧
    executeChangesCallbacks ⟨fun _ _ => some false, fun _ _ => true⟩
      ⟨[("a", ["a"])], [("a", ⟨none, none⟩)]⟩
      [("a", ⟨.str "x", .str "y", false, true⟩)] = ⟨[], false, true⟩ := by
  have h := c9_malformed_defer ["a"] ⟨fun _ _ => some false, fun _ _ => true⟩
    [("a", ⟨.str "x", .str "y", false, true⟩)] (by decide)
  exact ⟨h.1, h.2.1, h.2.2⟩

/-- C8 (code bug): under the default configuration the public
`manageChanges` is the debounced wrapper (`isNaN(0)` is false), and the
wrapper returns `undefined` to the caller — not the changes summary its
own documentation and declared type promise.  Only a NaN delay installs
the raw `_manageChanges`, which does return the summary. -/
theorem c8_default_manageChanges_returns_undefined :
    jsIsNaN (.num 0) = false ∧
    manageChangesResult ⟨fun _ _ => some true, fun _ _ => false⟩ ⟨[], []⟩ true
      (.num 0) [("a", ⟨.str "x", .str "y", false⟩)] = .ok none ∧
    (manageChangesCore ⟨fun _ _ => some true, fun _ _ => false⟩ ⟨[], []⟩ true
      [("a", ⟨.str "x", .str "y", false⟩)]).1 =
      [("a", ⟨.str "x", .str "y", false, true⟩)] ∧
    manageChangesResult ⟨fun _ _ => some true, fun _ _ => false⟩ ⟨[], []⟩ true
      .nan [("a", ⟨.str "x", .str "y", false⟩)] =
      .ok (some [("a", ⟨.str "x", .str "y", false, true⟩)]) := by
  exact ⟨rfl, by decide, by decide, by decide⟩

/-- C10: the GroupKey derivation is not injective on field sets: the
one-field group `["a|b"]` and the two-field group `["a","b"]` are
distinct field sets yet produce the same key, so the later of the two
registrations silently replaces the earlier one in both maps. -/
theorem c10_groupKey_not_injective :
    groupIdOf ["a|b"] = groupIdOf ["a", "b"] ∧
    ("a|b" : String) ∉ (["a", "b"] : List String) ∧
    buildRegistryFromList [(["a|b"], .fn 1), (["a", "b"], .fn 2)] =
      .ok ⟨[("a|b", ["a", "b"])], [("a|b", ⟨some 2, none⟩)]⟩ := by
  exact ⟨by decide, by decide, by decide⟩
